import Mathlib

/-!
Verification of the agent-registry core of `a2a_registry.py`
(registry server with liveness-based membership).

The registry holds two maps keyed by agent URL: `agents` (url to descriptor)
and `last_seen` (url to timestamp).  The store itself is the
`python_a2a.discovery.AgentRegistry` object, an external dependency whose
source is not in the repository; its operations are modelled from the spec
(section 4.1, Agent Record Store).  The FastAPI route handlers and the
`cleanup_stale_agents` sweeper are translated directly from
`src/a2a_registry.py`.

Python dicts are modelled as association lists with string keys; timestamps
(`time.time()`) are modelled as rationals.
-/

/-- Timestamps: `time.time()` values, modelled as rationals. -/
abbrev Time := ℚ

/-- The descriptor of one registered agent (`AgentCard` built from the
`AgentRegistration` pydantic model in `a2a_registry.py` lines 21-27).
`capabilities` and `skills` are opaque payloads, stored verbatim and never
interpreted by the registry; they are modelled as string association data. -/
structure AgentCard where
  name : String
  description : String
  url : String
  version : String
  capabilities : List (String × String)
  skills : List (List (String × String))
deriving DecidableEq

/-- Look up a key in an association list (Python `d.get(k)` / `d[k]`):
the value of the first entry with that key. -/
def lookupKey (k : String) : List (String × α) → Option α
  | [] => none
  | p :: rest => if p.1 = k then some p.2 else lookupKey k rest

/-- Replace the value at a key, or append the entry if the key is absent
(Python `d[k] = v`; insertion order of other entries is preserved). -/
def upsert (k : String) (v : α) : List (String × α) → List (String × α)
  | [] => [(k, v)]
  | p :: rest => if p.1 = k then (k, v) :: rest else p :: upsert k v rest

/-- Remove every entry with the given key (Python `del d[k]`, a no-op here
when the key is absent, matching the store's tolerant unregister). -/
def eraseKey (k : String) : List (String × α) → List (String × α)
  | [] => []
  | p :: rest => if p.1 = k then eraseKey k rest else p :: eraseKey k rest

/-- The keys of an association list. -/
def keysOf (l : List (String × α)) : List String :=
  l.map Prod.fst

/-- The process-wide registry state: the two dicts of the
`AgentRegistry` store object (`registry_server.agents` and
`registry_server.last_seen`). -/
structure RegistryState where
  agents : List (String × AgentCard)
  last_seen : List (String × Time)
deriving DecidableEq

/-- The state of a freshly started registry process: both dicts empty. -/
def emptyState : RegistryState :=
  { agents := [], last_seen := [] }

namespace AgentRegistry

/-- Modelled from the spec: `AgentRegistry.register_agent` of the external
`python_a2a` package (spec section 4.1, `register(descriptor)`): inserts or
replaces the entry for `descriptor.url` and sets `last_seen = now`; always
succeeds. -/
def register_agent (st : RegistryState) (card : AgentCard) (now : Time) :
    RegistryState :=
  { agents := upsert card.url card st.agents,
    last_seen := upsert card.url now st.last_seen }

/-- Modelled from the spec: `AgentRegistry.unregister_agent` of the external
`python_a2a` package (spec section 4.1, `unregister(url)`): removes the
entry if present; no-op if absent. -/
def unregister_agent (st : RegistryState) (url : String) : RegistryState :=
  { agents := eraseKey url st.agents,
    last_seen := eraseKey url st.last_seen }

/-- Modelled from the spec: `AgentRegistry.get_agent` of the external
`python_a2a` package (spec section 4.1, `get(url)`): the descriptor if
present, else nothing. -/
def get_agent (st : RegistryState) (url : String) : Option AgentCard :=
  lookupKey url st.agents

/-- Modelled from the spec: `AgentRegistry.get_all_agents` of the external
`python_a2a` package (spec section 4.1, `list_all()`): all registered
descriptors. -/
def get_all_agents (st : RegistryState) : List AgentCard :=
  st.agents.map Prod.snd

end AgentRegistry

/-- `HEARTBEAT_TIMEOUT = 30` seconds (`a2a_registry.py` line 40). -/
def HEARTBEAT_TIMEOUT : Time := 30

/-- `CLEANUP_INTERVAL = 10` seconds (`a2a_registry.py` line 41). -/
def CLEANUP_INTERVAL : Time := 10

/-- The well-formedness invariant of the shared store, holding of every
state reachable from `emptyState`: each dict has no duplicate keys, the two
dicts have the same key set, and each descriptor is stored under its own
`url` field. -/
def GoodState (st : RegistryState) : Prop :=
  (keysOf st.agents).Nodup ∧
  (keysOf st.last_seen).Nodup ∧
  (∀ u ∈ keysOf st.agents, u ∈ keysOf st.last_seen) ∧
  (∀ u ∈ keysOf st.last_seen, u ∈ keysOf st.agents) ∧
  (∀ p ∈ st.agents, p.2.url = p.1)

instance (st : RegistryState) : Decidable (GoodState st) := by
  unfold GoodState
  infer_instance

/-! ### Basic lemmas about the association-list operations -/

@[simp]
theorem keysOf_nil : keysOf ([] : List (String × α)) = [] :=
  rfl

@[simp]
theorem keysOf_cons (p : String × α) (l : List (String × α)) :
    keysOf (p :: l) = p.1 :: keysOf l :=
  rfl

theorem upsert_cons_eq (k : String) (v : α) (p : String × α)
    (l : List (String × α)) (h : p.1 = k) :
    upsert k v (p :: l) = (k, v) :: l := by
  rw [upsert, if_pos h]

theorem upsert_cons_ne (k : String) (v : α) (p : String × α)
    (l : List (String × α)) (h : ¬ p.1 = k) :
    upsert k v (p :: l) = p :: upsert k v l := by
  rw [upsert, if_neg h]

theorem eraseKey_cons_eq (k : String) (p : String × α)
    (l : List (String × α)) (h : p.1 = k) :
    eraseKey k (p :: l) = eraseKey k l := by
  rw [eraseKey, if_pos h]

theorem eraseKey_cons_ne (k : String) (p : String × α)
    (l : List (String × α)) (h : ¬ p.1 = k) :
    eraseKey k (p :: l) = p :: eraseKey k l := by
  rw [eraseKey, if_neg h]

theorem lookupKey_cons_eq (k : String) (p : String × α)
    (l : List (String × α)) (h : p.1 = k) :
    lookupKey k (p :: l) = some p.2 := by
  rw [lookupKey, if_pos h]

theorem lookupKey_cons_ne (k : String) (p : String × α)
    (l : List (String × α)) (h : ¬ p.1 = k) :
    lookupKey k (p :: l) = lookupKey k l := by
  rw [lookupKey, if_neg h]

theorem lookupKey_upsert_self (k : String) (v : α) (l : List (String × α)) :
    lookupKey k (upsert k v l) = some v := by
  induction l with
  | nil => simp [upsert, lookupKey]
  | cons p rest ih =>
    by_cases h : p.1 = k
    · rw [upsert_cons_eq k v p rest h, lookupKey_cons_eq k (k, v) rest rfl]
    · rw [upsert_cons_ne k v p rest h, lookupKey_cons_ne k p _ h, ih]

theorem lookupKey_upsert_ne (k k' : String) (v : α) (l : List (String × α))
    (h : k' ≠ k) : lookupKey k' (upsert k v l) = lookupKey k' l := by
  have hk : ¬ (k : String) = k' := fun he => h he.symm
  induction l with
  | nil =>
    rw [show upsert k v ([] : List (String × α)) = [(k, v)] from rfl]
    rw [lookupKey_cons_ne k' (k, v) [] hk]
  | cons p rest ih =>
    by_cases hp : p.1 = k
    · have hp' : ¬ p.1 = k' := fun he => h (he.symm.trans hp)
      rw [upsert_cons_eq k v p rest hp, lookupKey_cons_ne k' (k, v) rest hk,
        lookupKey_cons_ne k' p rest hp']
    · by_cases hp' : p.1 = k'
      · rw [upsert_cons_ne k v p rest hp, lookupKey_cons_eq k' p _ hp',
          lookupKey_cons_eq k' p rest hp']
      · rw [upsert_cons_ne k v p rest hp, lookupKey_cons_ne k' p _ hp',
          lookupKey_cons_ne k' p rest hp', ih]

theorem lookupKey_eraseKey_self (k : String) (l : List (String × α)) :
    lookupKey k (eraseKey k l) = none := by
  induction l with
  | nil => simp [eraseKey, lookupKey]
  | cons p rest ih =>
    by_cases h : p.1 = k
    · rw [eraseKey_cons_eq k p rest h, ih]
    · rw [eraseKey_cons_ne k p rest h, lookupKey_cons_ne k p _ h, ih]

theorem lookupKey_eraseKey_ne (k k' : String) (l : List (String × α))
    (h : k' ≠ k) : lookupKey k' (eraseKey k l) = lookupKey k' l := by
  induction l with
  | nil => simp [eraseKey, lookupKey]
  | cons p rest ih =>
    by_cases hp : p.1 = k
    · have hp' : ¬ p.1 = k' := fun he => h (he.symm.trans hp)
      rw [eraseKey_cons_eq k p rest hp, ih, lookupKey_cons_ne k' p rest hp']
    · by_cases hp' : p.1 = k'
      · rw [eraseKey_cons_ne k p rest hp, lookupKey_cons_eq k' p _ hp',
          lookupKey_cons_eq k' p rest hp']
      · rw [eraseKey_cons_ne k p rest hp, lookupKey_cons_ne k' p _ hp',
          lookupKey_cons_ne k' p rest hp', ih]

theorem mem_keysOf_upsert (u k : String) (v : α) (l : List (String × α)) :
    u ∈ keysOf (upsert k v l) ↔ u = k ∨ u ∈ keysOf l := by
  induction l with
  | nil => simp [upsert, keysOf]
  | cons p rest ih =>
    by_cases h : p.1 = k
    · rw [upsert_cons_eq k v p rest h]
      simp only [keysOf_cons, List.mem_cons, h]
      tauto
    · rw [upsert_cons_ne k v p rest h]
      simp only [keysOf_cons, List.mem_cons, ih]
      tauto

theorem mem_keysOf_eraseKey (u k : String) (l : List (String × α)) :
    u ∈ keysOf (eraseKey k l) ↔ u ∈ keysOf l ∧ u ≠ k := by
  induction l with
  | nil => simp [eraseKey, keysOf]
  | cons p rest ih =>
    by_cases h : p.1 = k
    · rw [eraseKey_cons_eq k p rest h, ih]
      simp only [keysOf_cons, List.mem_cons]
      constructor
      · rintro ⟨hu, hne⟩
        exact ⟨Or.inr hu, hne⟩
      · rintro ⟨hu | hu, hne⟩
        · exact absurd (hu.trans h) hne
        · exact ⟨hu, hne⟩
    · rw [eraseKey_cons_ne k p rest h]
      simp only [keysOf_cons, List.mem_cons, ih]
      constructor
      · rintro (hu | ⟨hu, hne⟩)
        · refine ⟨Or.inl hu, ?_⟩
          rw [hu]
          exact h
        · exact ⟨Or.inr hu, hne⟩
      · rintro ⟨hu | hu, hne⟩
        · exact Or.inl hu
        · exact Or.inr ⟨hu, hne⟩

theorem nodup_keysOf_upsert (k : String) (v : α) (l : List (String × α))
    (h : (keysOf l).Nodup) : (keysOf (upsert k v l)).Nodup := by
  induction l with
  | nil => simp [upsert, keysOf]
  | cons p rest ih =>
    simp only [keysOf_cons, List.nodup_cons] at h
    by_cases hp : p.1 = k
    · rw [upsert_cons_eq k v p rest hp]
      simp only [keysOf_cons, List.nodup_cons]
      exact ⟨by rw [← hp]; exact h.1, h.2⟩
    · rw [upsert_cons_ne k v p rest hp]
      simp only [keysOf_cons, List.nodup_cons]
      refine ⟨fun hmem => ?_, ih h.2⟩
      rcases (mem_keysOf_upsert p.1 k v rest).mp hmem with hmem | hmem
      · exact hp hmem
      · exact h.1 hmem

theorem nodup_keysOf_eraseKey (k : String) (l : List (String × α))
    (h : (keysOf l).Nodup) : (keysOf (eraseKey k l)).Nodup := by
  induction l with
  | nil => simp [eraseKey, keysOf]
  | cons p rest ih =>
    simp only [keysOf_cons, List.nodup_cons] at h
    by_cases hp : p.1 = k
    · rw [eraseKey_cons_eq k p rest hp]
      exact ih h.2
    · rw [eraseKey_cons_ne k p rest hp]
      simp only [keysOf_cons, List.nodup_cons]
      refine ⟨fun hmem => ?_, ih h.2⟩
      exact h.1 ((mem_keysOf_eraseKey p.1 k rest).mp hmem).1

theorem mem_of_mem_upsert (p : String × α) (k : String) (v : α)
    (l : List (String × α)) (h : p ∈ upsert k v l) : p = (k, v) ∨ p ∈ l := by
  induction l with
  | nil => simpa [upsert] using h
  | cons q rest ih =>
    by_cases hq : q.1 = k
    · rw [upsert_cons_eq k v q rest hq, List.mem_cons] at h
      rcases h with h | h
      · exact Or.inl h
      · exact Or.inr (List.mem_cons_of_mem _ h)
    · rw [upsert_cons_ne k v q rest hq, List.mem_cons] at h
      rcases h with h | h
      · exact Or.inr (h ▸ List.mem_cons_self _ _)
      · rcases ih h with h | h
        · exact Or.inl h
        · exact Or.inr (List.mem_cons_of_mem _ h)

theorem mem_of_mem_eraseKey (p : String × α) (k : String)
    (l : List (String × α)) (h : p ∈ eraseKey k l) : p ∈ l := by
  induction l with
  | nil => simp [eraseKey] at h
  | cons q rest ih =>
    by_cases hq : q.1 = k
    · rw [eraseKey_cons_eq k q rest hq] at h
      exact List.mem_cons_of_mem _ (ih h)
    · rw [eraseKey_cons_ne k q rest hq, List.mem_cons] at h
      rcases h with h | h
      · exact h ▸ List.mem_cons_self _ _
      · exact List.mem_cons_of_mem _ (ih h)

theorem mem_keysOf_iff_lookupKey (u : String) (l : List (String × α)) :
    u ∈ keysOf l ↔ (lookupKey u l).isSome := by
  induction l with
  | nil => simp [keysOf, lookupKey]
  | cons p rest ih =>
    by_cases h : p.1 = u
    · rw [lookupKey_cons_eq u p rest h]
      simp only [keysOf_cons, List.mem_cons, Option.isSome_some, iff_true]
      exact Or.inl h.symm
    · rw [lookupKey_cons_ne u p rest h]
      simp only [keysOf_cons, List.mem_cons, ih]
      constructor
      · rintro (hu | hu)
        · exact absurd hu.symm h
        · exact hu
      · exact Or.inr

theorem mem_of_lookupKey (u : String) (v : α) (l : List (String × α))
    (h : lookupKey u l = some v) : (u, v) ∈ l := by
  induction l with
  | nil => simp [lookupKey] at h
  | cons p rest ih =>
    by_cases hp : p.1 = u
    · rw [lookupKey_cons_eq u p rest hp] at h
      have hv : p.2 = v := Option.some.inj h
      have hpv : p = (u, v) := by
        rw [← hp, ← hv]
      rw [← hpv]
      exact List.mem_cons_self _ _
    · rw [lookupKey_cons_ne u p rest hp] at h
      exact List.mem_cons_of_mem _ (ih h)

theorem lookupKey_of_mem_nodup (u : String) (v : α) (l : List (String × α))
    (hnd : (keysOf l).Nodup) (h : (u, v) ∈ l) : lookupKey u l = some v := by
  induction l with
  | nil => simp at h
  | cons p rest ih =>
    simp only [keysOf_cons, List.nodup_cons] at hnd
    rcases List.mem_cons.mp h with h | h
    · rw [← h]
      exact lookupKey_cons_eq u (u, v) rest rfl
    · have hp : ¬ p.1 = u := by
        intro he
        refine hnd.1 ?_
        rw [he]
        exact List.mem_map.mpr ⟨(u, v), h, rfl⟩
      rw [lookupKey_cons_ne u p rest hp]
      exact ih hnd.2 h

/-! ### Route handlers and the sweeper, from `src/a2a_registry.py` -/

/-- JSON body of a heartbeat response: `{success: ..., error?: ...}`. -/
structure HeartbeatBody where
  success : Bool
  error : Option String
deriving DecidableEq

/-- The Python value a heartbeat handler invocation returns: either a bare
body dict, or (lines 114 and 117 of `a2a_registry.py`) a Python tuple
`(body, code)`. -/
inductive HandlerReturn where
  | body (b : HeartbeatBody)
  | bodyWithCode (b : HeartbeatBody) (code : Nat)
deriving DecidableEq

/-- What FastAPI serializes onto the wire: a JSON object for a dict return,
or a two-element JSON array for a tuple return. -/
inductive JsonOut where
  | obj (b : HeartbeatBody)
  | arr (b : HeartbeatBody) (code : Nat)
deriving DecidableEq

/-- FastAPI response semantics for a plain (non-`Response`) return value:
the HTTP status is the route's declared `status_code` (200 when, as for
`/registry/heartbeat`, none is declared) and the returned value is
JSON-serialized as the body.  A Python tuple `(body, code)` is not the
Flask status idiom in FastAPI: it is serialized as the JSON array
`[body, code]`, and the integer never becomes the response status. -/
def fastapiRender (routeStatus : Nat) : HandlerReturn → Nat × JsonOut
  | .body b => (routeStatus, .obj b)
  | .bodyWithCode b code => (routeStatus, .arr b code)

/-- The `heartbeat` route handler (`a2a_registry.py` lines 105-117).
`now` is the `time.time()` sample taken inside the handler.  `fault`
models an exception raised inside the `try` block before any mutation
(`some msg` carries `str(e)`): the `except` branch returns
`({success: False, error: str(e)}, 400)`.  On the normal path the handler
checks `request.url in registry_server.agents`; if registered it writes
`registry_server.last_seen[url] = time.time()` and returns
`{success: True}`, otherwise it returns
`({success: False, error: "Agent not registered"}, 404)` without touching
the store. -/
def heartbeat (st : RegistryState) (url : String) (now : Time)
    (fault : Option String) : RegistryState × HandlerReturn :=
  match fault with
  | some msg => (st, .bodyWithCode ⟨false, some msg⟩ 400)
  | none =>
    if (lookupKey url st.agents).isSome then
      ({ st with last_seen := upsert url now st.last_seen },
        .body ⟨true, none⟩)
    else
      (st, .bodyWithCode ⟨false, some "Agent not registered"⟩ 404)

/-- A raw registration request body as received by pydantic: `none` marks
an absent field.  `name`, `description`, `url` and `version` are required;
`capabilities` defaults to `{}` and `skills` defaults to `[]`
(`a2a_registry.py` lines 21-27). -/
structure RegistrationPayload where
  name : Option String
  description : Option String
  url : Option String
  version : Option String
  capabilities : Option (List (String × String))
  skills : Option (List (List (String × String)))
deriving DecidableEq

/-- Pydantic validation of `AgentRegistration` followed by
`AgentCard(**registration.dict())`: succeeds exactly when every required
field is present, with `capabilities`/`skills` defaulted when absent.
There is no further constraint on any field, in particular none on the
shape or non-emptiness of `url`. -/
def parseRegistration (p : RegistrationPayload) : Option AgentCard :=
  match p.name, p.description, p.url, p.version with
  | some nm, some ds, some u, some v =>
    some ⟨nm, ds, u, v, p.capabilities.getD [], p.skills.getD []⟩
  | _, _, _, _ => none

/-- Outcome of the register route: HTTP 201 with the stored descriptor, or
a pydantic validation rejection (HTTP 422 client error, handler never
entered). -/
inductive RegisterResponse where
  | created (card : AgentCard)
  | validationFailure
deriving DecidableEq

/-- The `register_agent` route handler (`a2a_registry.py` lines 85-90,
route status 201): on a valid payload builds the `AgentCard` and calls the
store's register; on an invalid payload FastAPI rejects the request before
the handler runs and the state is untouched. -/
def register_agent (st : RegistryState) (p : RegistrationPayload)
    (now : Time) : RegistryState × RegisterResponse :=
  match parseRegistration p with
  | none => (st, .validationFailure)
  | some card => (AgentRegistry.register_agent st card now, .created card)

/-- The `list_registered_agents` route handler (`a2a_registry.py` lines
93-96): `list(registry_server.get_all_agents())`. -/
def list_registered_agents (st : RegistryState) : List AgentCard :=
  AgentRegistry.get_all_agents st

/-- Response of the get-by-url route: HTTP 200 with the descriptor, or
`HTTPException(status_code=404)` whose detail message names the url. -/
inductive GetAgentResponse where
  | ok (card : AgentCard)
  | notFound (url : String)
deriving DecidableEq

/-- The `get_agent` route handler (`a2a_registry.py` lines 120-126): reads
`registry_server.get_agent(url)`; returns the card if truthy, else raises
`HTTPException(status_code=404, ...)`.  The state component of the result
records that the handler performs no store mutation. -/
def get_agent (st : RegistryState) (url : String) :
    RegistryState × GetAgentResponse :=
  match AgentRegistry.get_agent st url with
  | some a => (st, .ok a)
  | none => (st, .notFound url)

/-- HTTP status of a get-by-url response: 200 normally, 404 from the
raised `HTTPException`. -/
def getAgentStatus : GetAgentResponse → Nat
  | .ok _ => 200
  | .notFound _ => 404

/-- The url-collection pass of one sweep cycle (`a2a_registry.py` lines
63-72): `agents_to_remove`, the urls whose
`current_time - last_seen > HEARTBEAT_TIMEOUT`, in store order. -/
def staleUrls (now : Time) : List (String × Time) → List String
  | [] => []
  | p :: rest =>
    if now - p.2 > HEARTBEAT_TIMEOUT then p.1 :: staleUrls now rest
    else staleUrls now rest

/-- The removal pass of one sweep cycle (`a2a_registry.py` lines 74-77):
`registry_server.unregister_agent(url)` for each marked url in order. -/
def removeAll (urls : List String) (st : RegistryState) : RegistryState :=
  urls.foldl (fun s u => AgentRegistry.unregister_agent s u) st

/-- One complete fault-free sweep cycle: a single `time.time()` sample
`now` is used to mark every stale agent, then every marked agent is
unregistered. -/
def sweepBody (st : RegistryState) (now : Time) : RegistryState :=
  removeAll (staleUrls now st.last_seen) st

/-- One iteration of the `while True` body of `cleanup_stale_agents`
including its `try/except` (`a2a_registry.py` lines 61-80): when `fault`
is true an exception was raised inside the `try` (e.g. while enumerating
the store, before any removal); it is logged and swallowed, leaving the
store as it was.  Otherwise the cycle is `sweepBody`. -/
def sweepCycle (st : RegistryState) (now : Time) (fault : Bool) :
    RegistryState :=
  if fault then st else sweepBody st now

/-- The `cleanup_stale_agents` loop run for a finite prefix of cycles:
each element of `cycles` is one iteration's `time.time()` sample together
with whether that iteration's `try` block raised.  After every cycle,
faulty or not, the loop reaches `await asyncio.sleep(CLEANUP_INTERVAL)`
and proceeds to the next cycle. -/
def cleanup_stale_agents (st : RegistryState) :
    List (Time × Bool) → RegistryState
  | [] => st
  | c :: rest => cleanup_stale_agents (sweepCycle st c.1 c.2) rest

/-- One mutating operation on the shared store: a successful registration,
an unregistration, or one fault-free sweep cycle. -/
inductive RegistryOp where
  | registerOp (card : AgentCard) (now : Time)
  | unregisterOp (url : String)
  | sweepOp (now : Time)

/-- Apply one operation to the store. -/
def applyOp (st : RegistryState) : RegistryOp → RegistryState
  | .registerOp card now => AgentRegistry.register_agent st card now
  | .unregisterOp url => AgentRegistry.unregister_agent st url
  | .sweepOp now => sweepBody st now

/-- Run a sequence of operations from a starting state. -/
def execOps (st : RegistryState) : List RegistryOp → RegistryState
  | [] => st
  | op :: rest => execOps (applyOp st op) rest

/-! ### Lemmas about the sweeper and the store invariant -/

theorem lookupKey_removeAll (urls : List String) (st : RegistryState)
    (u : String) :
    lookupKey u (removeAll urls st).agents =
      (if u ∈ urls then none else lookupKey u st.agents) ∧
    lookupKey u (removeAll urls st).last_seen =
      (if u ∈ urls then none else lookupKey u st.last_seen) := by
  induction urls generalizing st with
  | nil => simp [removeAll]
  | cons w ws ih =>
    have hstep : removeAll (w :: ws) st =
        removeAll ws (AgentRegistry.unregister_agent st w) := rfl
    rw [hstep]
    rcases ih (AgentRegistry.unregister_agent st w) with ⟨ha, hl⟩
    by_cases hw : u ∈ ws
    · rw [ha, hl, if_pos hw, if_pos hw,
        if_pos (List.mem_cons_of_mem w hw), if_pos (List.mem_cons_of_mem w hw)]
      exact ⟨rfl, rfl⟩
    · by_cases huw : u = w
      · have hmem : u ∈ w :: ws := huw ▸ List.mem_cons_self w ws
        rw [ha, hl, if_neg hw, if_neg hw, if_pos hmem, if_pos hmem]
        constructor
        · rw [show (AgentRegistry.unregister_agent st w).agents =
            eraseKey w st.agents from rfl, huw, lookupKey_eraseKey_self]
        · rw [show (AgentRegistry.unregister_agent st w).last_seen =
            eraseKey w st.last_seen from rfl, huw, lookupKey_eraseKey_self]
      · have hmem : u ∉ w :: ws := by
          intro hc
          rcases List.mem_cons.mp hc with hc | hc
          · exact huw hc
          · exact hw hc
        rw [ha, hl, if_neg hw, if_neg hw, if_neg hmem, if_neg hmem]
        constructor
        · rw [show (AgentRegistry.unregister_agent st w).agents =
            eraseKey w st.agents from rfl, lookupKey_eraseKey_ne w u _ huw]
        · rw [show (AgentRegistry.unregister_agent st w).last_seen =
            eraseKey w st.last_seen from rfl, lookupKey_eraseKey_ne w u _ huw]

theorem mem_staleUrls (u : String) (now : Time) (l : List (String × Time)) :
    u ∈ staleUrls now l ↔
      ∃ t, (u, t) ∈ l ∧ now - t > HEARTBEAT_TIMEOUT := by
  induction l with
  | nil => simp [staleUrls]
  | cons p rest ih =>
    by_cases h : now - p.2 > HEARTBEAT_TIMEOUT
    · rw [show staleUrls now (p :: rest) = p.1 :: staleUrls now rest from by
        rw [staleUrls, if_pos h]]
      rw [List.mem_cons, ih]
      constructor
      · rintro (hu | ⟨t, ht, hgt⟩)
        · refine ⟨p.2, List.mem_cons.mpr (Or.inl ?_), h⟩
          rw [hu]
        · exact ⟨t, List.mem_cons_of_mem p ht, hgt⟩
      · rintro ⟨t, ht, hgt⟩
        rcases List.mem_cons.mp ht with ht | ht
        · exact Or.inl (congrArg Prod.fst ht)
        · exact Or.inr ⟨t, ht, hgt⟩
    · rw [show staleUrls now (p :: rest) = staleUrls now rest from by
        rw [staleUrls, if_neg h]]
      rw [ih]
      constructor
      · rintro ⟨t, ht, hgt⟩
        exact ⟨t, List.mem_cons_of_mem p ht, hgt⟩
      · rintro ⟨t, ht, hgt⟩
        rcases List.mem_cons.mp ht with ht | ht
        · refine absurd ?_ h
          have h2 : t = p.2 := congrArg Prod.snd ht
          rw [← h2]
          exact hgt
        · exact ⟨t, ht, hgt⟩

theorem stale_iff_lookup (u : String) (now : Time) (l : List (String × Time))
    (hnd : (keysOf l).Nodup) :
    u ∈ staleUrls now l ↔
      ∃ t, lookupKey u l = some t ∧ now - t > HEARTBEAT_TIMEOUT := by
  rw [mem_staleUrls]
  constructor
  · rintro ⟨t, hmem, hgt⟩
    exact ⟨t, lookupKey_of_mem_nodup u t l hnd hmem, hgt⟩
  · rintro ⟨t, hl, hgt⟩
    exact ⟨t, mem_of_lookupKey u t l hl, hgt⟩

theorem goodState_empty : GoodState emptyState := by
  refine ⟨?_, ?_, ?_, ?_, ?_⟩ <;> simp [emptyState]

theorem goodState_register (st : RegistryState) (card : AgentCard)
    (now : Time) (h : GoodState st) :
    GoodState (AgentRegistry.register_agent st card now) := by
  obtain ⟨h1, h2, h3, h4, h5⟩ := h
  refine ⟨nodup_keysOf_upsert _ _ _ h1, nodup_keysOf_upsert _ _ _ h2,
    ?_, ?_, ?_⟩
  · intro u hu
    rcases (mem_keysOf_upsert u card.url card st.agents).mp hu with hu | hu
    · exact (mem_keysOf_upsert u card.url now st.last_seen).mpr (Or.inl hu)
    · exact (mem_keysOf_upsert u card.url now st.last_seen).mpr
        (Or.inr (h3 u hu))
  · intro u hu
    rcases (mem_keysOf_upsert u card.url now st.last_seen).mp hu with hu | hu
    · exact (mem_keysOf_upsert u card.url card st.agents).mpr (Or.inl hu)
    · exact (mem_keysOf_upsert u card.url card st.agents).mpr
        (Or.inr (h4 u hu))
  · intro p hp
    rcases mem_of_mem_upsert p card.url card st.agents hp with hp | hp
    · rw [hp]
    · exact h5 p hp

theorem goodState_unregister (st : RegistryState) (url : String)
    (h : GoodState st) :
    GoodState (AgentRegistry.unregister_agent st url) := by
  obtain ⟨h1, h2, h3, h4, h5⟩ := h
  refine ⟨nodup_keysOf_eraseKey _ _ h1, nodup_keysOf_eraseKey _ _ h2,
    ?_, ?_, ?_⟩
  · intro u hu
    rcases (mem_keysOf_eraseKey u url st.agents).mp hu with ⟨hu, hne⟩
    exact (mem_keysOf_eraseKey u url st.last_seen).mpr ⟨h3 u hu, hne⟩
  · intro u hu
    rcases (mem_keysOf_eraseKey u url st.last_seen).mp hu with ⟨hu, hne⟩
    exact (mem_keysOf_eraseKey u url st.agents).mpr ⟨h4 u hu, hne⟩
  · intro p hp
    exact h5 p (mem_of_mem_eraseKey p url st.agents hp)

theorem goodState_removeAll (urls : List String) (st : RegistryState)
    (h : GoodState st) : GoodState (removeAll urls st) := by
  induction urls generalizing st with
  | nil => exact h
  | cons w ws ih =>
    exact ih (AgentRegistry.unregister_agent st w) (goodState_unregister st w h)

theorem goodState_sweepBody (st : RegistryState) (now : Time)
    (h : GoodState st) : GoodState (sweepBody st now) :=
  goodState_removeAll (staleUrls now st.last_seen) st h

theorem goodState_heartbeat (st : RegistryState) (url : String) (now : Time)
    (h : GoodState st) (hreg : (lookupKey url st.agents).isSome) :
    GoodState (heartbeat st url now none).1 := by
  obtain ⟨h1, h2, h3, h4, h5⟩ := h
  rw [show (heartbeat st url now none).1 =
    { st with last_seen := upsert url now st.last_seen } from by
      rw [heartbeat, if_pos hreg]]
  refine ⟨h1, nodup_keysOf_upsert _ _ _ h2, ?_, ?_, h5⟩
  · intro u hu
    exact (mem_keysOf_upsert u url now st.last_seen).mpr (Or.inr (h3 u hu))
  · intro u hu
    rcases (mem_keysOf_upsert u url now st.last_seen).mp hu with hu | hu
    · rw [hu]
      exact (mem_keysOf_iff_lookupKey url st.agents).mpr hreg
    · exact h4 u hu

theorem goodState_applyOp (st : RegistryState) (op : RegistryOp)
    (h : GoodState st) : GoodState (applyOp st op) := by
  cases op with
  | registerOp card now => exact goodState_register st card now h
  | unregisterOp url => exact goodState_unregister st url h
  | sweepOp now => exact goodState_sweepBody st now h

theorem goodState_execOps (ops : List RegistryOp) (st : RegistryState)
    (h : GoodState st) : GoodState (execOps st ops) := by
  induction ops generalizing st with
  | nil => exact h
  | cons op rest ih => exact ih (applyOp st op) (goodState_applyOp st op h)

theorem sweepBody_keeps_fresh (st : RegistryState) (now : Time) (u : String)
    (t : Time) (hnd : (keysOf st.last_seen).Nodup)
    (hl : lookupKey u st.last_seen = some t)
    (hfresh : ¬ now - t > HEARTBEAT_TIMEOUT) :
    lookupKey u (sweepBody st now).agents = lookupKey u st.agents := by
  rw [sweepBody, (lookupKey_removeAll (staleUrls now st.last_seen) st u).1,
    if_neg]
  intro hs
  rcases (stale_iff_lookup u now st.last_seen hnd).mp hs with ⟨t0, hl0, hgt0⟩
  rw [hl] at hl0
  have ht : t = t0 := Option.some.inj hl0
  rw [← ht] at hgt0
  exact hfresh hgt0

theorem sweepBody_drops_stale (st : RegistryState) (now : Time) (u : String)
    (t : Time) (hl : lookupKey u st.last_seen = some t)
    (hstale : now - t > HEARTBEAT_TIMEOUT) :
    lookupKey u (sweepBody st now).agents = none := by
  rw [sweepBody, (lookupKey_removeAll (staleUrls now st.last_seen) st u).1,
    if_pos]
  exact (mem_staleUrls u now st.last_seen).mpr
    ⟨t, mem_of_lookupKey u t st.last_seen hl, hstale⟩

/-! ### Sample data used by the witnesses -/

/-- A sample descriptor registered at `http://a`. -/
def cardA : AgentCard :=
  ⟨"agent-a", "demo agent", "http://a", "1.0", [], []⟩

/-- A different descriptor for the same url `http://a`. -/
def cardA2 : AgentCard :=
  ⟨"agent-a-v2", "replacement agent", "http://a", "2.0", [], []⟩

/-- A sample descriptor registered at `http://b`. -/
def cardB : AgentCard :=
  ⟨"agent-b", "demo agent", "http://b", "1.0", [], []⟩

/-- A sample store holding the two agents, `http://a` seen at 100 and
`http://b` seen at 60. -/
def sampleState : RegistryState :=
  { agents := [("http://a", cardA), ("http://b", cardB)],
    last_seen := [("http://a", 100), ("http://b", 60)] }

/-! ### The claims -/

/-- Claim C1: a sweep cycle samples a single time `now` and afterwards the
store contains exactly those registered agents whose age `now - last_seen`
does not exceed `HEARTBEAT_TIMEOUT`; an agent is marked and unregistered
iff its age is strictly greater than the timeout, with the one `now` used
for every agent (visible in the statement: `sweepBody` takes one `now`). -/
theorem sweep_evicts_exactly_stale (st : RegistryState) (now : Time)
    (h : GoodState st) (url : String) (c : AgentCard) :
    lookupKey url (sweepBody st now).agents = some c ↔
      (lookupKey url st.agents = some c ∧
        ∃ t, lookupKey url st.last_seen = some t ∧
          now - t ≤ HEARTBEAT_TIMEOUT) := by
  obtain ⟨h1, h2, h3, h4, h5⟩ := h
  rw [sweepBody, (lookupKey_removeAll (staleUrls now st.last_seen) st url).1]
  by_cases hs : url ∈ staleUrls now st.last_seen
  · rw [if_pos hs]
    rcases (stale_iff_lookup url now st.last_seen h2).mp hs with ⟨t0, hl0, hgt0⟩
    constructor
    · intro hc
      exact absurd hc (by simp)
    · rintro ⟨hreg, t, hl, hle⟩
      rw [hl0] at hl
      have ht : t0 = t := Option.some.inj hl
      rw [← ht] at hle
      exact absurd hgt0 (not_lt.mpr hle)
  · rw [if_neg hs]
    constructor
    · intro hreg
      refine ⟨hreg, ?_⟩
      have hmem : url ∈ keysOf st.agents :=
        (mem_keysOf_iff_lookupKey url st.agents).mpr (by rw [hreg]; rfl)
      have hmem2 : url ∈ keysOf st.last_seen := h3 url hmem
      rcases Option.isSome_iff_exists.mp
        ((mem_keysOf_iff_lookupKey url st.last_seen).mp hmem2) with ⟨t, ht⟩
      refine ⟨t, ht, ?_⟩
      by_contra hgt
      exact hs ((stale_iff_lookup url now st.last_seen h2).mpr
        ⟨t, ht, not_le.mp hgt⟩)
    · exact fun hc => hc.1

/-- Witness for C1 at the sample store: a sweep at time 100 keeps
`http://b`, last seen at 60, iff its age 40 is within the timeout (it is
not, so both sides are false and the agent is evicted). -/
theorem sweep_evicts_exactly_stale_witness :
    lookupKey "http://b" (sweepBody sampleState 100).agents = some cardB ↔
      (lookupKey "http://b" sampleState.agents = some cardB ∧
        ∃ t, lookupKey "http://b" sampleState.last_seen = some t ∧
          (100 : Time) - t ≤ HEARTBEAT_TIMEOUT) :=
  sweep_evicts_exactly_stale sampleState 100 (by decide) "http://b" cardB

/-- Claim C3: a heartbeat for a registered `url` at time `T` resets its age
to 0 as a sweep sampling `T` would observe (its `last_seen` becomes `T`);
a sweep sampling any time strictly before `T + HEARTBEAT_TIMEOUT` does not
evict it, and a sweep sampling any time strictly after
`T + HEARTBEAT_TIMEOUT`, with no intervening heartbeat or re-registration,
evicts it. -/
theorem heartbeat_refresh_window (st : RegistryState) (url : String)
    (T : Time) (c : AgentCard) (h : GoodState st)
    (hreg : lookupKey url st.agents = some c) :
    lookupKey url ((heartbeat st url T none).1).last_seen = some T ∧
    (∀ now : Time, now < T + HEARTBEAT_TIMEOUT →
      lookupKey url (sweepBody ((heartbeat st url T none).1) now).agents =
        some c) ∧
    (∀ now : Time, T + HEARTBEAT_TIMEOUT < now →
      lookupKey url (sweepBody ((heartbeat st url T none).1) now).agents =
        none) := by
  obtain ⟨h1, h2, h3, h4, h5⟩ := h
  have hsome : (lookupKey url st.agents).isSome := by rw [hreg]; rfl
  have hred : (heartbeat st url T none).1 =
      { st with last_seen := upsert url T st.last_seen } := by
    rw [heartbeat, if_pos hsome]
  rw [hred]
  refine ⟨lookupKey_upsert_self url T st.last_seen, ?_, ?_⟩
  · intro now hlt
    have hk := sweepBody_keeps_fresh
      { st with last_seen := upsert url T st.last_seen } now url T
      (nodup_keysOf_upsert url T st.last_seen h2)
      (lookupKey_upsert_self url T st.last_seen)
      (not_lt.mpr (by linarith))
    rw [hk]
    exact hreg
  · intro now hgt
    exact sweepBody_drops_stale
      { st with last_seen := upsert url T st.last_seen } now url T
      (lookupKey_upsert_self url T st.last_seen) (by simp; linarith)

/-- Witness for C3 at the sample store: heartbeat `http://a` at time 200;
a sweep at 205 keeps it, a sweep at 231 (strictly past 200 + 30) evicts
it. -/
theorem heartbeat_refresh_window_witness :
    lookupKey "http://a"
        ((heartbeat sampleState "http://a" 200 none).1).last_seen =
      some 200 ∧
    lookupKey "http://a"
        (sweepBody ((heartbeat sampleState "http://a" 200 none).1)
          205).agents = some cardA ∧
    lookupKey "http://a"
        (sweepBody ((heartbeat sampleState "http://a" 200 none).1)
          231).agents = none := by
  have h := heartbeat_refresh_window sampleState "http://a" 200 cardA
    (by decide) (by decide)
  exact ⟨h.1, h.2.1 205 (by norm_num [HEARTBEAT_TIMEOUT]),
    h.2.2 231 (by norm_num [HEARTBEAT_TIMEOUT])⟩

/-- Claim C9 (implicit frame property): a successful heartbeat for a
registered `url` leaves the descriptor map untouched and changes only that
one url's `last_seen` entry; every other url's timestamp is unchanged, and
the handler reports `{success: True}`. -/
theorem heartbeat_frame (st : RegistryState) (url : String) (now : Time)
    (c : AgentCard) (hreg : lookupKey url st.agents = some c) :
    (heartbeat st url now none).1.agents = st.agents ∧
    lookupKey url (heartbeat st url now none).1.last_seen = some now ∧
    (∀ u : String, u ≠ url →
      lookupKey u (heartbeat st url now none).1.last_seen =
        lookupKey u st.last_seen) ∧
    (heartbeat st url now none).2 = HandlerReturn.body ⟨true, none⟩ := by
  have hsome : (lookupKey url st.agents).isSome := by rw [hreg]; rfl
  have hred : heartbeat st url now none =
      ({ st with last_seen := upsert url now st.last_seen },
        HandlerReturn.body ⟨true, none⟩) := by
    rw [heartbeat, if_pos hsome]
  rw [hred]
  exact ⟨rfl, lookupKey_upsert_self url now st.last_seen,
    fun u hu => lookupKey_upsert_ne url u now st.last_seen hu, rfl⟩

/-- Witness for C9: heartbeat `http://a` at 123 in the sample store leaves
the agents map and the `http://b` timestamp alone. -/
theorem heartbeat_frame_witness :
    (heartbeat sampleState "http://a" 123 none).1.agents =
      sampleState.agents ∧
    lookupKey "http://a"
        (heartbeat sampleState "http://a" 123 none).1.last_seen =
      some 123 ∧
    (∀ u : String, u ≠ "http://a" →
      lookupKey u (heartbeat sampleState "http://a" 123 none).1.last_seen =
        lookupKey u sampleState.last_seen) ∧
    (heartbeat sampleState "http://a" 123 none).2 =
      HandlerReturn.body ⟨true, none⟩ :=
  heartbeat_frame sampleState "http://a" 123 cardA (by decide)

/-- Claim C6: an exception raised inside a sweep cycle is caught (the
cycle leaves the store as it was) and the loop always proceeds to the next
sleep and cycle — running the sweeper over a trace with a faulty cycle
inserted anywhere gives the same final store as the trace without it, so
no error terminates the sweep loop. -/
theorem sweep_error_swallowed (st : RegistryState) (now : Time)
    (pre post : List (Time × Bool)) :
    sweepCycle st now true = st ∧
    cleanup_stale_agents st (pre ++ (now, true) :: post) =
      cleanup_stale_agents st (pre ++ post) := by
  constructor
  · rfl
  · induction pre generalizing st with
    | nil => rfl
    | cons cyc cs ih => exact ih (sweepCycle st cyc.1 cyc.2)

/-- Claim C4 (code bug): heartbeat for an unregistered url does return the
structured body `{success: False, error: "Agent not registered"}` and
leaves the store unchanged, but the Python value returned is the tuple
`(body, 404)`; FastAPI serializes that tuple as a JSON array with the
route's default status, so the surfaced HTTP status is 200, not the 404
the code (and the claim) intend. -/
theorem heartbeat_unregistered_not_404 :
    heartbeat emptyState "http://a" 0 none =
      (emptyState,
        HandlerReturn.bodyWithCode ⟨false, some "Agent not registered"⟩
          404) ∧
    fastapiRender 200 (heartbeat emptyState "http://a" 0 none).2 =
      (200, JsonOut.arr ⟨false, some "Agent not registered"⟩ 404) ∧
    (fastapiRender 200 (heartbeat emptyState "http://a" 0 none).2).1 ≠ 404 :=
  ⟨rfl, rfl, by decide⟩

/-- Claim C10 (code bug): an exception raised while processing a heartbeat
is caught and the handler returns the structured value
`({success: False, error: str(e)}, 400)` rather than propagating — but
that tuple is serialized by FastAPI as a JSON array under the default
status, so the surfaced HTTP status is 200, not 400. -/
theorem heartbeat_fault_not_400 :
    heartbeat emptyState "http://a" 0 (some "boom") =
      (emptyState, HandlerReturn.bodyWithCode ⟨false, some "boom"⟩ 400) ∧
    fastapiRender 200 (heartbeat emptyState "http://a" 0 (some "boom")).2 =
      (200, JsonOut.arr ⟨false, some "boom"⟩ 400) ∧
    (fastapiRender 200
        (heartbeat emptyState "http://a" 0 (some "boom")).2).1 ≠ 400 :=
  ⟨rfl, rfl, by decide⟩

/-- Claim C8: the get-by-url handler returns the stored descriptor with
status 200 when an entry is present, raises the 404 `HTTPException`
exactly when none is, and never mutates the store (its state component is
the input state). -/
theorem get_agent_contract (st : RegistryState) (url : String) :
    (get_agent st url).1 = st ∧
    (∀ c : AgentCard,
      get_agent st url = (st, GetAgentResponse.ok c) ↔
        lookupKey url st.agents = some c) ∧
    (getAgentStatus (get_agent st url).2 = 404 ↔
      lookupKey url st.agents = none) ∧
    (getAgentStatus (get_agent st url).2 = 200 ↔
      (lookupKey url st.agents).isSome) := by
  cases hl : lookupKey url st.agents with
  | none =>
    refine ⟨?_, ?_, ?_, ?_⟩ <;>
      simp [get_agent, AgentRegistry.get_agent, hl, getAgentStatus]
  | some a =>
    refine ⟨?_, ?_, ?_, ?_⟩ <;>
      simp [get_agent, AgentRegistry.get_agent, hl, getAgentStatus]

/-- Claim C7: after any sequence of register, unregister and sweep
operations from the empty store, the list endpoint (a total function, so
it cannot error) returns a collection containing a descriptor exactly when
that descriptor is the one currently registered under its url. -/
theorem list_all_reflects_registry (ops : List RegistryOp) (c : AgentCard) :
    c ∈ list_registered_agents (execOps emptyState ops) ↔
      lookupKey c.url (execOps emptyState ops).agents = some c := by
  obtain ⟨h1, h2, h3, h4, h5⟩ :=
    goodState_execOps ops emptyState goodState_empty
  constructor
  · intro hc
    rcases List.mem_map.mp hc with ⟨p, hp, hpc⟩
    have hkey : p.1 = c.url := by
      rw [← hpc]
      exact (h5 p hp).symm
    have hpair : (c.url, c) ∈ (execOps emptyState ops).agents := by
      rw [← hkey, ← hpc]
      exact hp
    exact lookupKey_of_mem_nodup c.url c _ h1 hpair
  · intro hc
    exact List.mem_map.mpr ⟨(c.url, c), mem_of_lookupKey c.url c _ hc, rfl⟩

theorem filter_url_nil (u : String) (l : List (String × AgentCard))
    (hkm : ∀ p ∈ l, p.2.url = p.1) (hmem : u ∉ keysOf l) :
    (l.map Prod.snd).filter (fun c => c.url == u) = [] := by
  rw [List.filter_eq_nil_iff]
  intro c hc
  rcases List.mem_map.mp hc with ⟨p, hp, hpc⟩
  have hne : p.1 ≠ u := by
    intro he
    refine hmem ?_
    rw [← he]
    exact List.mem_map.mpr ⟨p, hp, rfl⟩
  rw [← hpc]
  simp [hkm p hp, hne]

theorem length_filter_url (u : String) (l : List (String × AgentCard))
    (hkm : ∀ p ∈ l, p.2.url = p.1) (hnd : (keysOf l).Nodup)
    (hmem : u ∈ keysOf l) :
    ((l.map Prod.snd).filter (fun c => c.url == u)).length = 1 := by
  induction l with
  | nil => simp at hmem
  | cons p rest ih =>
    have hp2 : p.2.url = p.1 := hkm p (List.mem_cons_self p rest)
    simp only [keysOf_cons, List.nodup_cons] at hnd
    simp only [keysOf_cons, List.mem_cons] at hmem
    by_cases hpu : p.1 = u
    · have hrest : (rest.map Prod.snd).filter (fun c => c.url == u) = [] := by
        apply filter_url_nil
        · intro q hq
          exact hkm q (List.mem_cons_of_mem p hq)
        · intro hc
          apply hnd.1
          rw [hpu]
          exact hc
      rw [List.map_cons, List.filter_cons]
      simp [hp2, hpu, hrest]
    · have hmem2 : u ∈ keysOf rest := by
        rcases hmem with hmem | hmem
        · exact absurd hmem.symm hpu
        · exact hmem
      rw [List.map_cons, List.filter_cons]
      have hcond : ¬ ((p.2.url == u) = true) := by
        simp [hp2, hpu]
      rw [if_neg (by simpa using hcond)]
      exact ih (fun q hq => hkm q (List.mem_cons_of_mem p hq)) hnd.2 hmem2

/-- Claim C2: re-registering an already registered url with a different
descriptor overwrites the prior entry without error (registration is a
total function): afterwards `get` returns the second descriptor only and
the listing contains exactly one entry for that url. -/
theorem reregister_last_write_wins (st : RegistryState)
    (c1 c2 : AgentCard) (t1 t2 : Time) (h : GoodState st)
    (hurl : c1.url = c2.url) :
    lookupKey c1.url
        (AgentRegistry.register_agent
          (AgentRegistry.register_agent st c1 t1) c2 t2).agents = some c2 ∧
    ((AgentRegistry.get_all_agents
        (AgentRegistry.register_agent
          (AgentRegistry.register_agent st c1 t1) c2 t2)).filter
      (fun c => c.url == c1.url)).length = 1 := by
  have h2 : GoodState (AgentRegistry.register_agent
      (AgentRegistry.register_agent st c1 t1) c2 t2) :=
    goodState_register _ c2 t2 (goodState_register _ c1 t1 h)
  obtain ⟨hnd, _, _, _, hkm⟩ := h2
  rw [hurl]
  constructor
  · exact lookupKey_upsert_self c2.url c2 _
  · apply length_filter_url c2.url _ hkm hnd
    rw [show keysOf (AgentRegistry.register_agent
        (AgentRegistry.register_agent st c1 t1) c2 t2).agents =
      keysOf (upsert c2.url c2
        (AgentRegistry.register_agent st c1 t1).agents) from rfl]
    exact (mem_keysOf_upsert c2.url c2.url c2 _).mpr (Or.inl rfl)

/-- Witness for C2: registering `cardA` and then `cardA2` (same url,
different descriptor) on the empty store: lookup returns `cardA2` and the
listing holds exactly one entry for `http://a`. -/
theorem reregister_last_write_wins_witness :
    lookupKey cardA.url
        (AgentRegistry.register_agent
          (AgentRegistry.register_agent emptyState cardA 0) cardA2
          5).agents = some cardA2 ∧
    ((AgentRegistry.get_all_agents
        (AgentRegistry.register_agent
          (AgentRegistry.register_agent emptyState cardA 0) cardA2
          5)).filter (fun c => c.url == cardA.url)).length = 1 :=
  reregister_last_write_wins emptyState cardA cardA2 0 5 (by decide) rfl

/-- Claim C5 counterexample: the claim asserts an empty-string `url` is
rejected, but pydantic's `url: str` places no constraint on the string:
a registration whose `url` is `""` is accepted with creation status and
stored under the empty key. -/
theorem register_empty_url_accepted :
    (register_agent emptyState
        ⟨some "n", some "d", some "", some "1", none, none⟩ 0).2 =
      RegisterResponse.created ⟨"n", "d", "", "1", [], []⟩ ∧
    lookupKey ""
        ((register_agent emptyState
          ⟨some "n", some "d", some "", some "1", none, none⟩
          0).1).agents = some ⟨"n", "d", "", "1", [], []⟩ :=
  ⟨rfl, rfl⟩

/-- Claim C5 as amended: a registration payload missing any required
string field (name, description, url, version) is rejected as a client
error with the registry state unchanged; a payload with all four present
always succeeds with creation status, the built descriptor carrying the
payload's fields and being stored under its url — with no constraint on
the url at all (an empty string is accepted, see the counterexample). -/
theorem register_required_fields (st : RegistryState)
    (p : RegistrationPayload) (now : Time) :
    ((p.name = none ∨ p.description = none ∨ p.url = none ∨
        p.version = none) →
      register_agent st p now = (st, RegisterResponse.validationFailure)) ∧
    (∀ nm ds u v, p.name = some nm → p.description = some ds →
      p.url = some u → p.version = some v →
      ∃ card : AgentCard,
        register_agent st p now =
          (AgentRegistry.register_agent st card now,
            RegisterResponse.created card) ∧
        card.name = nm ∧ card.description = ds ∧ card.url = u ∧
        card.version = v ∧
        lookupKey u (register_agent st p now).1.agents = some card) := by
  obtain ⟨n, d, u0, v0, cap, sk⟩ := p
  constructor
  · intro hmiss
    rcases n with _ | nm
    · simp [register_agent, parseRegistration]
    rcases d with _ | ds
    · simp [register_agent, parseRegistration]
    rcases u0 with _ | uu
    · simp [register_agent, parseRegistration]
    rcases v0 with _ | vv
    · simp [register_agent, parseRegistration]
    rcases hmiss with h | h | h | h <;> simp at h
  · intro nm ds u v hn hd hu hv
    simp only at hn hd hu hv
    subst hn
    subst hd
    subst hu
    subst hv
    refine ⟨(⟨nm, ds, u, v, cap.getD [], sk.getD []⟩ : AgentCard), rfl, rfl,
      rfl, rfl, rfl, ?_⟩
    exact lookupKey_upsert_self u
      (⟨nm, ds, u, v, cap.getD [], sk.getD []⟩ : AgentCard) st.agents

/-- Witness for C5 (amended): a payload missing `name` is rejected with
the store unchanged, and a complete payload is created and stored. -/
theorem register_required_fields_witness :
    register_agent emptyState
        ⟨none, some "d", some "http://a", some "1", none, none⟩ 0 =
      (emptyState, RegisterResponse.validationFailure) :=
  (register_required_fields emptyState
    ⟨none, some "d", some "http://a", some "1", none, none⟩ 0).1
    (Or.inl rfl)
